import Mathlib

/-
Verification of the KeyCharacterMap keyboard-layout engine
(include/input/KeyCharacterMap.h and its spec).

The data structures are translated from the class declaration in
include/input/KeyCharacterMap.h.  The member-function bodies live in
libs/input/KeyCharacterMap.cpp, which is not part of the sampled sources;
every operation below is therefore modelled from the specification text
(spec.md) and carries a doc comment saying so.  char16_t code units,
int32_t key codes and int32_t meta-state bitmasks are all modelled as Nat
(the spec only ever treats them as non-negative codes and bitmasks).
status_t results are modelled with an explicit Status type, and functions
that report "no result" through a boolean-plus-out-parameter are modelled
as Option-valued functions.
-/

namespace Kcm

/-- Keyboard type classification, translated from the enum class
KeyboardType in include/input/KeyCharacterMap.h. -/
inductive KeyboardType where
  | unknown
  | numeric
  | predictive
  | alpha
  | full
  | specialFunction
  | overlay
deriving DecidableEq

/-- Success or failure of a status_t-returning operation. -/
inductive Status where
  | ok
  | error
deriving DecidableEq

/-- One modifier-conditioned outcome of a key, translated from struct
Behavior in include/input/KeyCharacterMap.h. -/
structure Behavior where
  metaState : Nat
  character : Nat
  fallbackKeyCode : Nat
  replacementKeyCode : Nat
deriving DecidableEq

/-- One key-table entry, translated from struct Key in
include/input/KeyCharacterMap.h: printed label, dialing-pad number, and
the behavior list ordered from most specific to least specific meta key
binding. -/
structure Key where
  label : Nat
  number : Nat
  behaviors : List Behavior
deriving DecidableEq

/-- The loaded key character map, translated from the private fields of
class KeyCharacterMap in include/input/KeyCharacterMap.h.  The
KeyedVector and std::map members are modelled as association lists from
code to entry. -/
structure KeyCharacterMap where
  mKeys : List (Nat × Key)
  mType : KeyboardType
  mLoadFileName : String
  mLayoutOverlayApplied : Bool
  mKeyRemapping : List (Nat × Nat)
  mKeysByScanCode : List (Nat × Nat)
  mKeysByUsageCode : List (Nat × Nat)
deriving DecidableEq

/-- Lookup in an association list keyed by integer codes: the first
binding of the code wins. -/
def alookup {α : Type} (k : Nat) : List (Nat × α) → Option α
  | [] => none
  | p :: rest => if p.1 = k then some p.2 else alookup k rest

/-- Insert-or-overwrite in an association list keyed by integer codes:
the first binding of the code is replaced, otherwise the binding is
appended. -/
def aset {α : Type} (k : Nat) (v : α) : List (Nat × α) → List (Nat × α)
  | [] => [(k, v)]
  | p :: rest => if p.1 = k then (k, v) :: rest else p :: aset k v rest

theorem alookup_aset_self {α : Type} (k : Nat) (v : α) :
    ∀ l : List (Nat × α), alookup k (aset k v l) = some v := by
  intro l
  induction l with
  | nil => simp [aset, alookup]
  | cons p rest ih =>
      by_cases h : p.1 = k
      · simp [aset, h, alookup]
      · simp [aset, h, alookup, ih]

theorem alookup_aset_ne {α : Type} {k k2 : Nat} (v : α) (h : k ≠ k2) :
    ∀ l : List (Nat × α), alookup k (aset k2 v l) = alookup k l := by
  have hne : k2 ≠ k := fun he => h he.symm
  intro l
  induction l with
  | nil => simp [aset, alookup, hne]
  | cons p rest ih =>
      by_cases hp : p.1 = k2
      · simp [aset, hp, alookup, hne]
      · simp [aset, hp, alookup, ih]

theorem alookup_mem {α : Type} {k : Nat} {v : α} :
    ∀ {l : List (Nat × α)}, alookup k l = some v → (k, v) ∈ l := by
  intro l
  induction l with
  | nil => simp [alookup]
  | cons p rest ih =>
      by_cases h : p.1 = k
      · simp [alookup, h]
        intro hv
        left
        cases p
        simp_all
      · simp [alookup, h]
        intro hv
        exact Or.inr (ih hv)

theorem alookup_eq_none_of_not_mem {α : Type} {k : Nat} :
    ∀ {l : List (Nat × α)}, k ∉ l.map Prod.fst → alookup k l = none := by
  intro l
  induction l with
  | nil => simp [alookup]
  | cons p rest ih =>
      intro h
      simp only [List.map_cons, List.mem_cons, not_or] at h
      simp [alookup, Ne.symm h.1, ih h.2]

theorem alookup_of_mem_nodup {α : Type} {k : Nat} {v : α} :
    ∀ {l : List (Nat × α)}, (l.map Prod.fst).Nodup → (k, v) ∈ l →
      alookup k l = some v := by
  intro l
  induction l with
  | nil => simp
  | cons p rest ih =>
      intro hnd hm
      simp only [List.map_cons, List.nodup_cons] at hnd
      rcases List.mem_cons.mp hm with h | h
      · simp [alookup, ← h]
      · have hne : p.1 ≠ k := by
          intro he
          exact hnd.1 (he ▸ List.mem_map_of_mem Prod.fst h)
        simp [alookup, hne, ih hnd.2 h]

/-- Modelled from the spec: the meta-state compatibility predicate of the
behavior resolver (§4.2).  The implementation of
KeyCharacterMap::matchesMetaState is not in the sampled sources (only its
declaration in include/input/KeyCharacterMap.h line 248).  Per the spec a
behavior matches when every modifier it names is simultaneously active in
the query, and modifiers it does not name may be in any state; the spec
flags the exact grouping of left/right modifier variants as an open
question and asks for one consistent, documented rule, so this model uses
the plain bitmask-inclusion rule: every bit named by the behavior must be
active in the event state. -/
def matchesMetaState (eventMetaState behaviorMetaState : Nat) : Bool :=
  eventMetaState &&& behaviorMetaState == behaviorMetaState

/-- Modelled from the spec: KeyCharacterMap::getKey (declaration only in
the header, line 246): look the key code up in the key table. -/
def getKey (m : KeyCharacterMap) (keyCode : Nat) : Option Key :=
  alookup keyCode m.mKeys

/-- Modelled from the spec: the behavior resolver (§4.2,
KeyCharacterMap::getKeyBehavior, declaration only in the header, line
247): look up the Key for the key code; if absent, no result; otherwise
return the first behavior of the key's ordered list whose metaState is
compatible with the queried metaState. -/
def getKeyBehavior (m : KeyCharacterMap) (keyCode metaState : Nat) :
    Option Behavior :=
  match getKey m keyCode with
  | none => none
  | some key => key.behaviors.find? (fun b => matchesMetaState metaState b.metaState)

/-- Modelled from the spec: KeyCharacterMap::getCharacter (§4.2 derived
operation `character`): the resolved behavior's character field, or 0 if
no character is generated. -/
def getCharacter (m : KeyCharacterMap) (keyCode metaState : Nat) : Nat :=
  match getKeyBehavior m keyCode metaState with
  | none => 0
  | some b => b.character

theorem matchesMetaState_zero (ms : Nat) : matchesMetaState ms 0 = true := by
  simp [matchesMetaState]

theorem find?_isSome_of_mem {α : Type} {p : α → Bool} {b : α} :
    ∀ {l : List α}, b ∈ l → p b = true → (l.find? p).isSome = true := by
  intro l
  induction l with
  | nil => simp
  | cons a rest ih =>
      intro hm hp
      rcases List.mem_cons.mp hm with h | h
      · subst h
        simp [List.find?, hp]
      · cases hpa : p a with
        | true => simp [List.find?, hpa]
        | false => simp [List.find?, hpa, ih h hp]

/-- A small concrete table used to instantiate the claim theorems: key 29
produces letter a (capital A under the shift bit 1), key 30 likewise
letter b, key 8 produces digit 1 unconditionally. -/
def demoMap : KeyCharacterMap :=
  { mKeys := [
      (29, { label := 97, number := 97,
             behaviors := [⟨1, 65, 0, 0⟩, ⟨0, 97, 0, 0⟩] }),
      (30, { label := 98, number := 98,
             behaviors := [⟨1, 66, 0, 0⟩, ⟨0, 98, 0, 0⟩] }),
      (8, { label := 49, number := 49,
            behaviors := [⟨0, 49, 0, 0⟩] })],
    mType := KeyboardType.full,
    mLoadFileName := "demo.kcm",
    mLayoutOverlayApplied := false,
    mKeyRemapping := [],
    mKeysByScanCode := [(2, 8)],
    mKeysByUsageCode := [] }

/-- Claim C1: for every key code present in the loaded table and for
every metaState value, the behavior resolver returns some behavior — the
all-zero default behavior, kept as the last entry of the key's behavior
list, is compatible with every queried metaState and so guarantees a
result. -/
theorem claim1_default_behavior_always_resolves
    (m : KeyCharacterMap) (keyCode ms : Nat) (key : Key)
    (hk : getKey m keyCode = some key)
    (hne : key.behaviors ≠ [])
    (hlast : (key.behaviors.getLast hne).metaState = 0) :
    ∃ b, getKeyBehavior m keyCode ms = some b ∧
      matchesMetaState ms b.metaState = true := by
  have hmem : key.behaviors.getLast hne ∈ key.behaviors := List.getLast_mem hne
  have hp : matchesMetaState ms (key.behaviors.getLast hne).metaState = true := by
    rw [hlast]
    exact matchesMetaState_zero ms
  have hsome := @find?_isSome_of_mem Behavior
    (fun b => matchesMetaState ms b.metaState) _ _ hmem hp
  obtain ⟨b, hb⟩ := Option.isSome_iff_exists.mp hsome
  refine ⟨b, by simp [getKeyBehavior, hk, hb], ?_⟩
  exact @List.find?_some Behavior (fun x => matchesMetaState ms x.metaState) b key.behaviors hb

/-- Witness for claim C1 on the concrete demo table. -/
theorem claim1_witness :
    ∃ b, getKeyBehavior demoMap 29 6 = some b ∧
      matchesMetaState 6 b.metaState = true :=
  claim1_default_behavior_always_resolves demoMap 29 6
    { label := 97, number := 97, behaviors := [⟨1, 65, 0, 0⟩, ⟨0, 97, 0, 0⟩] }
    (by decide) (by decide) (by decide)

/-- Meta-state x names a bit-subset of the modifier bits named by y. -/
def subsetMeta (x y : Nat) : Prop := x &&& y = x

/-- Meta-state x names a strict bit-subset of the modifier bits named by
y, i.e. x is a strictly less specific modifier binding than y. -/
def strictSubsetMeta (x y : Nat) : Prop := x &&& y = x ∧ x ≠ y

instance (x y : Nat) : Decidable (strictSubsetMeta x y) := by
  unfold strictSubsetMeta
  infer_instance

/-- The behavior-list ordering invariant of the data model (§3, §9): the
list runs from most specific to least specific meta key binding, so no
entry is a strictly less specific binding (strict bit-subset of named
modifiers) than any later entry.  The popcount-keyed parse-time sort the
spec prescribes guarantees exactly this. -/
def sortedMostSpecificFirst (l : List Behavior) : Prop :=
  l.Pairwise (fun a b => ¬ strictSubsetMeta a.metaState b.metaState)

instance (l : List Behavior) : Decidable (sortedMostSpecificFirst l) := by
  unfold sortedMostSpecificFirst
  infer_instance

theorem find?_pairwise_first {α : Type} {R : α → α → Prop} {p : α → Bool} {r : α} :
    ∀ {l : List α}, l.Pairwise R → l.find? p = some r →
      ∀ b ∈ l, p b = true → r = b ∨ R r b := by
  intro l
  induction l with
  | nil => simp
  | cons a rest ih =>
      intro hpw hf b hb hpb
      rw [List.pairwise_cons] at hpw
      cases hpa : p a with
      | true =>
          rw [List.find?_cons_of_pos _ hpa] at hf
          have hra : r = a := by injection hf with h; exact h.symm
          rcases List.mem_cons.mp hb with h | h
          · exact Or.inl (hra.trans h.symm)
          · exact Or.inr (hra ▸ hpw.1 b h)
      | false =>
          rw [List.find?_cons_of_neg _ (by simp [hpa])] at hf
          rcases List.mem_cons.mp hb with h | h
          · subst h
            rw [hpa] at hpb
            cases hpb
          · exact ih hpw.2 hf b h hpb

theorem land_subset_trans {ms M1 M2 : Nat} (h1 : ms &&& M1 = M1)
    (h2 : M2 &&& M1 = M2) : ms &&& M2 = M2 := by
  calc ms &&& M2 = ms &&& (M2 &&& M1) := by rw [h2]
    _ = ms &&& (M1 &&& M2) := by rw [Nat.land_comm M2 M1]
    _ = ms &&& M1 &&& M2 := by rw [Nat.land_assoc]
    _ = M1 &&& M2 := by rw [h1]
    _ = M2 := by rw [Nat.land_comm, h2]

/-- Claim C2 as amended: for a key whose behavior list satisfies the
most-specific-first ordering invariant and contains behaviors for
metaStates M1 and M2 with M2 a strict bit-subset of M1, a query whose
metaState matches M1 (and therefore also M2) resolves to a behavior that
is never the less specific M2 behavior and is itself never a strictly
less specific binding than M1; when the M1 and M2 behaviors are the only
candidates compatible with the query, the resolved behavior is exactly
the M1 one, and getCharacter reports its character. -/
theorem claim2_specificity_ordering
    (m : KeyCharacterMap) (keyCode ms M1 M2 : Nat) (key : Key)
    (b1 b2 : Behavior)
    (hk : getKey m keyCode = some key)
    (hsorted : sortedMostSpecificFirst key.behaviors)
    (hb1 : b1 ∈ key.behaviors) (hm1 : b1.metaState = M1)
    (hb2 : b2 ∈ key.behaviors) (hm2 : b2.metaState = M2)
    (hsub : strictSubsetMeta M2 M1)
    (hms : matchesMetaState ms M1 = true) :
    ∃ r, getKeyBehavior m keyCode ms = some r ∧
      matchesMetaState ms r.metaState = true ∧
      matchesMetaState ms M2 = true ∧
      ¬ strictSubsetMeta r.metaState M1 ∧
      r.metaState ≠ M2 ∧
      getCharacter m keyCode ms = r.character ∧
      ((∀ b ∈ key.behaviors, matchesMetaState ms b.metaState = true →
          b.metaState = M1 ∨ b.metaState = M2) → r.metaState = M1) := by
  have hland1 : ms &&& M1 = M1 := by simpa [matchesMetaState] using hms
  have hmatch2 : matchesMetaState ms M2 = true := by
    simp only [matchesMetaState, beq_iff_eq]
    exact land_subset_trans hland1 hsub.1
  have hpb1 : matchesMetaState ms b1.metaState = true := by rw [hm1]; exact hms
  have hsome := @find?_isSome_of_mem Behavior
    (fun b => matchesMetaState ms b.metaState) _ _ hb1 hpb1
  obtain ⟨r, hr⟩ := Option.isSome_iff_exists.mp hsome
  have hpr : matchesMetaState ms r.metaState = true :=
    @List.find?_some Behavior (fun x => matchesMetaState ms x.metaState) r key.behaviors hr
  have hord := find?_pairwise_first hsorted hr b1 hb1 hpb1
  have hnotstrict : ¬ strictSubsetMeta r.metaState M1 := by
    rcases hord with h | h
    · rw [h, hm1]
      intro hc
      exact hc.2 rfl
    · rw [← hm1]
      exact h
  have hneM2 : r.metaState ≠ M2 := by
    intro he
    exact hnotstrict (he ▸ hsub)
  refine ⟨r, by simp [getKeyBehavior, hk, hr], hpr, hmatch2, hnotstrict, hneM2,
    by simp [getCharacter, getKeyBehavior, hk, hr], ?_⟩
  intro honly
  rcases honly r (@List.mem_of_find?_eq_some Behavior
    (fun x => matchesMetaState ms x.metaState) r key.behaviors hr) hpr with h | h
  · exact h
  · exact absurd h hneM2

/-- Witness for the amended claim C2 on the concrete demo table: with
shift = 1 and an extra bit 2 set, key 29 still resolves to the shifted
behavior rather than the default. -/
theorem claim2_witness :
    ∃ r, getKeyBehavior demoMap 29 3 = some r ∧
      matchesMetaState 3 r.metaState = true ∧
      matchesMetaState 3 0 = true ∧
      ¬ strictSubsetMeta r.metaState 1 ∧
      r.metaState ≠ 0 ∧
      getCharacter demoMap 29 3 = r.character ∧
      ((∀ b ∈ [(⟨1, 65, 0, 0⟩ : Behavior), ⟨0, 97, 0, 0⟩],
          matchesMetaState 3 b.metaState = true →
          b.metaState = 1 ∨ b.metaState = 0) → r.metaState = 1) :=
  claim2_specificity_ordering demoMap 29 3 1 0
    { label := 97, number := 97, behaviors := [⟨1, 65, 0, 0⟩, ⟨0, 97, 0, 0⟩] }
    ⟨1, 65, 0, 0⟩ ⟨0, 97, 0, 0⟩
    (by decide) (by decide) (by decide) (by decide) (by decide) (by decide)
    (by decide) (by decide)

/-- A table exhibiting three nested behaviors above the default: meta
masks 7 ⊃ 3 ⊃ 1 ⊃ 0, with distinct characters 103, 102, 101, 100. -/
def cxKey : Key :=
  { label := 0, number := 0,
    behaviors := [⟨7, 103, 0, 0⟩, ⟨3, 102, 0, 0⟩, ⟨1, 101, 0, 0⟩, ⟨0, 100, 0, 0⟩] }

/-- The table holding cxKey at key code 1. -/
def cxMap : KeyCharacterMap :=
  { mKeys := [(1, cxKey)],
    mType := KeyboardType.full,
    mLoadFileName := "cx.kcm",
    mLayoutOverlayApplied := false,
    mKeyRemapping := [],
    mKeysByScanCode := [],
    mKeysByUsageCode := [] }

/-- Claim C2 as stated is false: in cxMap, key 1 has behaviors for
M1 = 3 and M2 = 1 with M2 a strict bit-subset of M1, its behavior list
satisfies the most-specific-first invariant, and the query metaState 7
matches both behaviors' conditions, yet the resolver does not return the
M1 behavior — it returns the even more specific metaState-7 behavior. -/
theorem claim2_counterexample :
    strictSubsetMeta 1 3 ∧
    matchesMetaState 7 3 = true ∧
    matchesMetaState 7 1 = true ∧
    getKey cxMap 1 = some cxKey ∧
    sortedMostSpecificFirst cxKey.behaviors ∧
    (Behavior.mk 3 102 0 0) ∈ cxKey.behaviors ∧
    (Behavior.mk 1 101 0 0) ∈ cxKey.behaviors ∧
    (getKeyBehavior cxMap 1 7).map Behavior.metaState = some 7 ∧
    ¬ (getKeyBehavior cxMap 1 7).map Behavior.metaState = some 3 := by
  decide

/-- Modelled from the spec: KeyCharacterMap::addKeyRemapping (§4.3, header
line 133; implementation not in the sampled sources): add or overwrite an
entry of the key-code → key-code remap table. -/
def addKeyRemapping (m : KeyCharacterMap) (fromKeyCode toKeyCode : Nat) :
    KeyCharacterMap :=
  { m with mKeyRemapping := aset fromKeyCode toKeyCode m.mKeyRemapping }

/-- Modelled from the spec: KeyCharacterMap::mapKey (§4.3, header line
137; implementation not in the sampled sources): consult the usage-code
table first, fall back to the scan-code table, and report not-found
(modelled as none, for the status_t error plus out-parameter) if neither
table resolves. -/
def mapKey (m : KeyCharacterMap) (scanCode usageCode : Nat) : Option Nat :=
  match alookup usageCode m.mKeysByUsageCode with
  | some keyCode => some keyCode
  | none => alookup scanCode m.mKeysByScanCode

/-- Modelled from the spec: KeyCharacterMap::applyKeyRemapping (§4.3,
header line 140; implementation not in the sampled sources): look the key
code up in the key-code remap table and return it remapped, or unchanged
when the table has no entry for it. -/
def applyKeyRemapping (m : KeyCharacterMap) (fromKeyCode : Nat) : Nat :=
  match alookup fromKeyCode m.mKeyRemapping with
  | some toKeyCode => toKeyCode
  | none => fromKeyCode

/-- Claim C6: mapKey consults the usage-code table first and falls back
to the scan-code table, reporting not-found when neither contains a
mapping; applyKeyRemapping is a separate later stage that substitutes
through the key-code remap table and passes unknown codes through
unchanged; and after addKeyRemapping K1 K2, applying the remap stage
after mapKey on a scan code S mapped to K1 yields K2 while mapKey alone
still yields K1. -/
theorem claim6_remap_pipeline_staging
    (m : KeyCharacterMap) (S K1 K2 : Nat)
    (hscan : alookup S m.mKeysByScanCode = some K1)
    (husage : alookup 0 m.mKeysByUsageCode = none) :
    mapKey (addKeyRemapping m K1 K2) S 0 = some K1 ∧
    applyKeyRemapping (addKeyRemapping m K1 K2) K1 = K2 ∧
    mapKey m S 0 = some K1 ∧
    (∀ s u, alookup u m.mKeysByUsageCode = none →
      alookup s m.mKeysByScanCode = none → mapKey m s u = none) ∧
    (∀ k, alookup k m.mKeyRemapping = none → applyKeyRemapping m k = k) := by
  refine ⟨?_, ?_, ?_, ?_, ?_⟩
  · simp [mapKey, addKeyRemapping, husage, hscan]
  · simp [applyKeyRemapping, addKeyRemapping, alookup_aset_self]
  · simp [mapKey, husage, hscan]
  · intro s u hu hs
    simp [mapKey, hu, hs]
  · intro k hk
    simp [applyKeyRemapping, hk]

/-- Witness for claim C6 on the concrete demo table: scan code 2 maps to
key code 8, and remapping 8 to 9 changes only the remap stage. -/
theorem claim6_witness :
    mapKey (addKeyRemapping demoMap 8 9) 2 0 = some 8 ∧
    applyKeyRemapping (addKeyRemapping demoMap 8 9) 8 = 9 ∧
    mapKey demoMap 2 0 = some 8 ∧
    (∀ s u, alookup u demoMap.mKeysByUsageCode = none →
      alookup s demoMap.mKeysByScanCode = none → mapKey demoMap s u = none) ∧
    (∀ k, alookup k demoMap.mKeyRemapping = none →
      applyKeyRemapping demoMap k = k) :=
  claim6_remap_pipeline_staging demoMap 2 8 9 (by decide) (by decide)

/-- Modelled from the spec: KeyCharacterMap::combine (§3 lifecycle, header
line 88; implementation not in the sampled sources): layer the overlay's
keys over this map — every key defined by the overlay replaces the
same-numbered base key wholesale, with no field-level merge — and record
that a layout overlay has been applied.  The keyboard type, load file
name and the three remap tables of the base are untouched. -/
def combine (m overlay : KeyCharacterMap) : KeyCharacterMap :=
  { m with
    mKeys := overlay.mKeys.foldl (fun ks p => aset p.1 p.2 ks) m.mKeys,
    mLayoutOverlayApplied := true }

theorem alookup_foldl_aset_of_none {α : Type} {k : Nat} :
    ∀ {l : List (Nat × α)} (ks0 : List (Nat × α)), alookup k l = none →
      alookup k (l.foldl (fun ks p => aset p.1 p.2 ks) ks0) = alookup k ks0 := by
  intro l
  induction l with
  | nil =>
      intro ks0 _
      rfl
  | cons p rest ih =>
      intro ks0 h
      have hne : p.1 ≠ k := by
        intro he
        simp [alookup, he] at h
      rw [List.foldl_cons, ih _ (by simpa [alookup, hne] using h)]
      exact alookup_aset_ne _ (fun he => hne he.symm) ks0

theorem alookup_foldl_aset_of_some {α : Type} {k : Nat} {v : α} :
    ∀ {l : List (Nat × α)} (ks0 : List (Nat × α)),
      (l.map Prod.fst).Nodup → alookup k l = some v →
      alookup k (l.foldl (fun ks p => aset p.1 p.2 ks) ks0) = some v := by
  intro l
  induction l with
  | nil =>
      intro ks0 _ h
      cases h
  | cons p rest ih =>
      intro ks0 hnd h
      simp only [List.map_cons, List.nodup_cons] at hnd
      rw [List.foldl_cons]
      by_cases hp : p.1 = k
      · have hv : p.2 = v := by
          have := h
          simp [alookup, hp] at this
          exact this
        have hnone : alookup k rest = none := by
          apply alookup_eq_none_of_not_mem
          rw [← hp]
          exact hnd.1
        rw [alookup_foldl_aset_of_none _ hnone, hp, hv]
        exact alookup_aset_self k v ks0
      · have h2 : alookup k rest = some v := by
          have := h
          simp [alookup, hp] at this
          exact this
        exact ih _ hnd.2 h2

/-- Claim C7: combining with an overlay replaces the entire Key record of
every key code the overlay defines — label, number and whole behavior
list, with no field-level merging — and leaves every base key code absent
from the overlay completely unchanged. -/
theorem claim7_overlay_replace_semantics
    (m overlay : KeyCharacterMap)
    (hnd : (overlay.mKeys.map Prod.fst).Nodup) (k : Nat) :
    (∀ key, alookup k overlay.mKeys = some key →
      getKey (combine m overlay) k = some key) ∧
    (alookup k overlay.mKeys = none →
      getKey (combine m overlay) k = getKey m k) := by
  constructor
  · intro key hk
    simpa [getKey, combine] using alookup_foldl_aset_of_some _ hnd hk
  · intro hk
    simpa [getKey, combine] using alookup_foldl_aset_of_none _ hk

/-- An overlay table redefining key 29 and adding key 31, used to witness
the overlay claims. -/
def overlayMap : KeyCharacterMap :=
  { mKeys := [
      (29, { label := 113, number := 113,
             behaviors := [⟨0, 113, 0, 0⟩] }),
      (31, { label := 99, number := 99,
             behaviors := [⟨0, 99, 0, 0⟩] })],
    mType := KeyboardType.overlay,
    mLoadFileName := "overlay.kcm",
    mLayoutOverlayApplied := false,
    mKeyRemapping := [],
    mKeysByScanCode := [],
    mKeysByUsageCode := [] }

/-- Witness for claim C7 on the concrete demo table and overlay: key 29
is wholly replaced by the overlay's record, key 30 is untouched. -/
theorem claim7_witness :
    (∀ key, alookup 29 overlayMap.mKeys = some key →
      getKey (combine demoMap overlayMap) 29 = some key) ∧
    (alookup 29 overlayMap.mKeys = none →
      getKey (combine demoMap overlayMap) 29 = getKey demoMap 29) :=
  claim7_overlay_replace_semantics demoMap overlayMap (by decide) 29

/-- Modelled from the spec: KeyCharacterMap::reloadBaseFromFile (header
line 279, §3 lifecycle, §7 reload failure, §9 file-path-keyed reload;
implementation not in the sampled sources): re-parse the remembered load
file into a fresh key table and keyboard type and atomically swap them
in, resetting the overlay flag; a failed re-parse surfaces a failure
status and leaves the map unchanged.  The external file system plus
parser collaborator is abstracted as the function fs from file name to
parse result. -/
def reloadBaseFromFile (fs : String → Option (List (Nat × Key) × KeyboardType))
    (m : KeyCharacterMap) : Status × KeyCharacterMap :=
  match fs m.mLoadFileName with
  | none => (Status.error, m)
  | some fresh =>
      (Status.ok,
        { m with mKeys := fresh.1, mType := fresh.2, mLayoutOverlayApplied := false })

/-- Modelled from the spec: KeyCharacterMap::clearLayoutOverlay (header
line 91; implementation not in the sampled sources): when a layout
overlay has been applied, discard its effects by reloading the base
layout from the remembered file; with no overlay applied there is nothing
to clear. -/
def clearLayoutOverlay (fs : String → Option (List (Nat × Key) × KeyboardType))
    (m : KeyCharacterMap) : Status × KeyCharacterMap :=
  if m.mLayoutOverlayApplied then reloadBaseFromFile fs m else (Status.ok, m)

/-- Claim C4: when clearLayoutOverlay is invoked after an overlay was
applied and the original file named by mLoadFileName can no longer be
re-parsed, the operation surfaces a failure status and leaves the whole
in-memory map — keys, keyboard type, overlay flag, remap tables —
completely unchanged. -/
theorem claim4_reload_failure_is_atomic
    (fs : String → Option (List (Nat × Key) × KeyboardType))
    (m : KeyCharacterMap)
    (hov : m.mLayoutOverlayApplied = true)
    (hfail : fs m.mLoadFileName = none) :
    clearLayoutOverlay fs m = (Status.error, m) := by
  simp [clearLayoutOverlay, hov, reloadBaseFromFile, hfail]

/-- The demo table with an overlay applied, used to witness the reload
claims. -/
def demoOverlaid : KeyCharacterMap := combine demoMap overlayMap

/-- Witness for claim C4: with every file unloadable, clearing the
overlay fails and returns the map unchanged. -/
theorem claim4_witness :
    clearLayoutOverlay (fun _ => none) demoOverlaid =
      (Status.error, demoOverlaid) :=
  claim4_reload_failure_is_atomic (fun _ => none) demoOverlaid rfl rfl

/-- Claim C8: neither combine nor clearLayoutOverlay modifies the three
remap tables — the key-code remapping added by addKeyRemapping and the
scan-code and usage-code mappings are identical before and after any
overlay combination or overlay reset, and the two remap-stage lookups
(mapKey, applyKeyRemapping) are unaffected by combine. -/
theorem claim8_overlay_ops_leave_remap_tables
    (m overlay : KeyCharacterMap)
    (fs : String → Option (List (Nat × Key) × KeyboardType)) :
    (combine m overlay).mKeyRemapping = m.mKeyRemapping ∧
    (combine m overlay).mKeysByScanCode = m.mKeysByScanCode ∧
    (combine m overlay).mKeysByUsageCode = m.mKeysByUsageCode ∧
    (clearLayoutOverlay fs m).2.mKeyRemapping = m.mKeyRemapping ∧
    (clearLayoutOverlay fs m).2.mKeysByScanCode = m.mKeysByScanCode ∧
    (clearLayoutOverlay fs m).2.mKeysByUsageCode = m.mKeysByUsageCode ∧
    (∀ k, applyKeyRemapping (combine m overlay) k = applyKeyRemapping m k) ∧
    (∀ s u, mapKey (combine m overlay) s u = mapKey m s u) := by
  refine ⟨rfl, rfl, rfl, ?_, ?_, ?_, fun k => rfl, fun s u => rfl⟩ <;>
    · unfold clearLayoutOverlay reloadBaseFromFile
      cases m.mLayoutOverlayApplied <;> simp <;>
        cases fs m.mLoadFileName <;> simp

/-- Modelled from the spec: operator== on KeyCharacterMap (header line
155, spec §6 Equality; implementation not in the sampled sources): two
tables compare equal iff they hold the same key set with identical
per-key label, number and behavior-list content and the same keyboard
type; the three remap tables, the load file name and the overlay flag are
not consulted. -/
def kcmEq (m1 m2 : KeyCharacterMap) : Bool :=
  (m1.mType == m2.mType) &&
    (m1.mKeys.all fun p => decide (alookup p.1 m2.mKeys = some p.2)) &&
    (m2.mKeys.all fun p => decide (alookup p.1 m1.mKeys = some p.2))

/-- Claim C5: for tables whose key codes are duplicate-free (the table
invariant), the modelled operator== returns true exactly when the two
tables agree on the keyboard type and on the Key record stored at every
key code; and changing a table's remap tables, load file name or overlay
flag never changes the comparison. -/
theorem claim5_equality_key_set_and_type_only
    (m1 m2 : KeyCharacterMap)
    (hnd1 : (m1.mKeys.map Prod.fst).Nodup)
    (hnd2 : (m2.mKeys.map Prod.fst).Nodup) :
    (kcmEq m1 m2 = true ↔
      (m1.mType = m2.mType ∧ ∀ k, alookup k m1.mKeys = alookup k m2.mKeys)) ∧
    (∀ rm sc uc fn ov,
      kcmEq { m1 with mKeyRemapping := rm, mKeysByScanCode := sc,
                      mKeysByUsageCode := uc, mLoadFileName := fn,
                      mLayoutOverlayApplied := ov } m2 = kcmEq m1 m2) := by
  constructor
  · constructor
    · intro h
      simp only [kcmEq, Bool.and_eq_true, List.all_eq_true, decide_eq_true_eq,
        beq_iff_eq] at h
      refine ⟨h.1.1, fun k => ?_⟩
      cases c1 : alookup k m1.mKeys with
      | some v =>
          exact (h.1.2 (k, v) (alookup_mem c1)).symm ▸ rfl
      | none =>
          cases c2 : alookup k m2.mKeys with
          | none => rfl
          | some w =>
              have := h.2 (k, w) (alookup_mem c2)
              rw [c1] at this
              cases this
    · intro h
      simp only [kcmEq, Bool.and_eq_true, List.all_eq_true, decide_eq_true_eq,
        beq_iff_eq]
      refine ⟨⟨h.1, fun p hp => ?_⟩, fun p hp => ?_⟩
      · rw [← h.2 p.1]
        exact alookup_of_mem_nodup hnd1 hp
      · rw [h.2 p.1]
        exact alookup_of_mem_nodup hnd2 hp
  · intro rm sc uc fn ov
    rfl

/-- The demo table with different remap tables, load file name and
overlay flag but the same keys and type, used to witness claim C5. -/
def demoVariant : KeyCharacterMap :=
  { demoMap with
    mKeyRemapping := [(8, 9)],
    mKeysByScanCode := [],
    mKeysByUsageCode := [(7, 30)],
    mLoadFileName := "elsewhere.kcm",
    mLayoutOverlayApplied := true }

/-- Witness for claim C5: the demo table and its remap-and-name variant
compare equal exactly because they agree on keys and type. -/
theorem claim5_witness :
    kcmEq demoMap demoVariant = true ↔
      (demoMap.mType = demoVariant.mType ∧
        ∀ k, alookup k demoMap.mKeys = alookup k demoVariant.mKeys) :=
  (claim5_equality_key_set_and_type_only demoMap demoVariant
    (by decide) (by decide)).1

/-- A synthesized key event: device, key code, the meta state in force
when the event fires, press (true) or release (false), and a
monotonically increasing timestamp. -/
structure KeyEvent where
  deviceId : Nat
  keyCode : Nat
  metaState : Nat
  down : Bool
  time : Nat
deriving DecidableEq

/-- The two modifier press/release policies of the synthesizer (§4.4):
ephemeral modifiers are held only while needed; locked modifiers are
toggled by a press-and-release and persist. -/
inductive ModKind where
  | ephemeral
  | locked
deriving DecidableEq

/-- One modifier key known to the event synthesizer: its meta-state bit,
the key code that produces it, and its press/release policy. -/
structure ModDef where
  bit : Nat
  keyCode : Nat
  kind : ModKind
deriving DecidableEq

/-- Modelled from the spec: the modifier-key table of the event
synthesizer (§4.4; the implementation KeyCharacterMap.cpp with its meta
key handling is not in the sampled sources).  Meta mask bits and key
codes follow the Android meta-state constants: shift 0x1 with key 59, alt
0x2 with key 57, ctrl 0x1000 with key 113, all ephemeral, and caps lock
0x100000 with key 115, locked.  The spec flags the choice rule for the
left/right double modifiers as open and asks for one deterministic,
documented choice; this model always chooses the left-hand key of each
pair, collapsing every double modifier into a single ephemeral entry. -/
def modifierTable : List ModDef :=
  [⟨1, 59, ModKind.ephemeral⟩,
   ⟨2, 57, ModKind.ephemeral⟩,
   ⟨4096, 113, ModKind.ephemeral⟩,
   ⟨1048576, 115, ModKind.locked⟩]

/-- Does the meta state hold every bit of the mask. -/
def hasBits (state mask : Nat) : Bool :=
  state &&& mask == mask

/-- Modelled from the spec: the press half of addMetaKeys (§4.4, header
lines 254-270; implementation not in the sampled sources).  Before the
character's primary key, press every ephemeral modifier the character
needs that is not yet active, and toggle — press and immediately release
— every locked modifier whose current state disagrees with the required
one.  Returns the emitted events, the updated running meta state, and the
advanced timestamp. -/
def pressPhase (deviceId : Nat) : List ModDef → Nat → Nat → Nat →
    List KeyEvent × Nat × Nat
  | [], cur, _, t => ([], cur, t)
  | md :: rest, cur, needed, t =>
    match md.kind with
    | ModKind.ephemeral =>
        if hasBits needed md.bit && !hasBits cur md.bit then
          let cur2 := cur ||| md.bit
          let r := pressPhase deviceId rest cur2 needed (t + 1)
          (⟨deviceId, md.keyCode, cur2, true, t⟩ :: r.1, r.2)
        else
          pressPhase deviceId rest cur needed t
    | ModKind.locked =>
        if hasBits needed md.bit != hasBits cur md.bit then
          let cur2 := cur ^^^ md.bit
          let r := pressPhase deviceId rest cur2 needed (t + 2)
          (⟨deviceId, md.keyCode, cur2, true, t⟩ ::
            ⟨deviceId, md.keyCode, cur2, false, t + 1⟩ :: r.1, r.2)
        else
          pressPhase deviceId rest cur needed t

/-- Modelled from the spec: the release half of addMetaKeys (§4.4).
After the character's primary key release, release every ephemeral
modifier that is active but not required by the next character; locked
modifiers persist until they must change again. -/
def releasePhase (deviceId : Nat) : List ModDef → Nat → Nat → Nat →
    List KeyEvent × Nat × Nat
  | [], cur, _, t => ([], cur, t)
  | md :: rest, cur, nextNeeded, t =>
    match md.kind with
    | ModKind.ephemeral =>
        if hasBits cur md.bit && !hasBits nextNeeded md.bit then
          let cur2 := cur ^^^ md.bit
          let r := releasePhase deviceId rest cur2 nextNeeded (t + 1)
          (⟨deviceId, md.keyCode, cur2, false, t⟩ :: r.1, r.2)
        else
          releasePhase deviceId rest cur nextNeeded t
    | ModKind.locked => releasePhase deviceId rest cur nextNeeded t

/-- First behavior of the list producing the character, yielding its
required meta state. -/
def findCharInBehaviors (ch : Nat) : List Behavior → Option Nat
  | [] => none
  | b :: rest =>
      if b.character = ch then some b.metaState else findCharInBehaviors ch rest

/-- Reverse lookup over the key-table entries for the character. -/
def findKeyIn (ch : Nat) : List (Nat × Key) → Option (Nat × Nat)
  | [] => none
  | p :: rest =>
    match findCharInBehaviors ch p.2.behaviors with
    | some ms => some (p.1, ms)
    | none => findKeyIn ch rest

/-- Modelled from the spec: KeyCharacterMap::findKey (§4.4, header line
250; implementation not in the sampled sources): reverse lookup over the
key table for some key code and meta state whose behavior produces the
character; none when no key of the table can produce it. -/
def findKey (m : KeyCharacterMap) (ch : Nat) : Option (Nat × Nat) :=
  findKeyIn ch m.mKeys

/-- The meta state the next character will require — zero at the end of
the text, so every ephemeral modifier is released after the last
character. -/
def nextNeededMeta (m : KeyCharacterMap) : List Nat → Nat
  | [] => 0
  | ch :: _ =>
    match findKey m ch with
    | some km => km.2
    | none => 0

/-- Modelled from the spec: the per-character step of the event
synthesizer (§4.4): reconcile the running meta state toward the
character's required state, emit the primary key's down and up events
with monotonically increasing timestamps, then release the ephemeral
modifiers the next character does not require. -/
def synthChar (deviceId cur t keyCode needed nextNeeded : Nat) :
    List KeyEvent × Nat × Nat :=
  let r1 := pressPhase deviceId modifierTable cur needed t
  let r2 := releasePhase deviceId modifierTable r1.2.1 nextNeeded (r1.2.2 + 2)
  (r1.1 ++
    [⟨deviceId, keyCode, r1.2.1, true, r1.2.2⟩,
     ⟨deviceId, keyCode, r1.2.1, false, r1.2.2 + 1⟩] ++ r2.1,
   r2.2)

/-- Modelled from the spec: the main loop of KeyCharacterMap::getEvents
(§4.4): walk the characters carrying the single running meta state; a
character no key can produce fails the whole synthesis. -/
def getEventsAux (m : KeyCharacterMap) (deviceId : Nat) :
    List Nat → Nat → Nat → Option (List KeyEvent)
  | [], _, _ => some []
  | ch :: rest, cur, t =>
    match findKey m ch with
    | none => none
    | some km =>
      let r := synthChar deviceId cur t km.1 km.2 (nextNeededMeta m rest)
      match getEventsAux m deviceId rest r.2.1 r.2.2 with
      | none => none
      | some evs => some (r.1 ++ evs)

/-- Modelled from the spec: KeyCharacterMap::getEvents (§4.4, header
lines 128-129; implementation not in the sampled sources): synthesize the
key-event sequence producing the character sequence, or fail completely —
none models the false return with no usable output — when some character
is unrepresentable by the table. -/
def getEvents (m : KeyCharacterMap) (deviceId : Nat) (chars : List Nat) :
    Option (List KeyEvent) :=
  getEventsAux m deviceId chars 0 0

theorem getEventsAux_none_of_unrepresentable
    (m : KeyCharacterMap) (deviceId ch : Nat) (hnone : findKey m ch = none) :
    ∀ (chars : List Nat), ch ∈ chars → ∀ cur t,
      getEventsAux m deviceId chars cur t = none := by
  intro chars
  induction chars with
  | nil =>
      intro h
      cases h
  | cons c rest ih =>
      intro hmem cur t
      rcases List.mem_cons.mp hmem with h | h
      · subst h
        simp [getEventsAux, hnone]
      · cases hc : findKey m c with
        | none => simp [getEventsAux, hc]
        | some km => simp [getEventsAux, hc, ih h]

/-- Claim C3: for every character sequence containing a character that no
key of the table can produce, the whole synthesis call fails — getEvents
yields no key events at all, not even for the representable part of the
sequence. -/
theorem claim3_unrepresentable_character_fails_synthesis
    (m : KeyCharacterMap) (deviceId : Nat) (chars : List Nat) (ch : Nat)
    (hmem : ch ∈ chars) (hnone : findKey m ch = none) :
    getEvents m deviceId chars = none :=
  getEventsAux_none_of_unrepresentable m deviceId ch hnone chars hmem 0 0

/-- Witness for claim C3 on the concrete demo table: character 8482 has
no producing key, so synthesizing A then 8482 yields nothing. -/
theorem claim3_witness : getEvents demoMap 0 [65, 8482] = none :=
  claim3_unrepresentable_character_fails_synthesis demoMap 0 [65, 8482] 8482
    (by decide) (by decide)

/-- Claim C9: synthesizing a two-character text whose characters both
require exactly the Shift modifier (meta bit 1) emits exactly one Shift
press (key 59), the two primary keys' down/up pairs, and exactly one
Shift release — Shift is not released and re-pressed between the two
characters. -/
theorem claim9_synthesis_shift_minimality
    (m : KeyCharacterMap) (d chA chB kA kB : Nat)
    (hA : findKey m chA = some (kA, 1))
    (hB : findKey m chB = some (kB, 1)) :
    getEvents m d [chA, chB] =
      some [⟨d, 59, 1, true, 0⟩,
            ⟨d, kA, 1, true, 1⟩, ⟨d, kA, 1, false, 2⟩,
            ⟨d, kB, 1, true, 3⟩, ⟨d, kB, 1, false, 4⟩,
            ⟨d, 59, 0, false, 5⟩] := by
  simp only [getEvents, getEventsAux, nextNeededMeta, hA, hB]
  simp [synthChar, pressPhase, releasePhase, modifierTable, hasBits]

/-- Witness for claim C9 on the concrete demo table: synthesizing "AB"
presses Shift once around both letter keys. -/
theorem claim9_witness :
    getEvents demoMap 0 [65, 66] =
      some [⟨0, 59, 1, true, 0⟩,
            ⟨0, 29, 1, true, 1⟩, ⟨0, 29, 1, false, 2⟩,
            ⟨0, 30, 1, true, 3⟩, ⟨0, 30, 1, false, 4⟩,
            ⟨0, 59, 0, false, 5⟩] :=
  claim9_synthesis_shift_minimality demoMap 0 65 66 29 30
    (by decide) (by decide)

end Kcm
